import Mathlib

/-!
Verification of the aggregation core of a metrics-instrumentation library:
the boundary-generation module (create, generate, linear, exponential),
the less-then-or-equal histogram aggregator, and the batcher's aggregator
selection.  JavaScript numbers are modelled as rationals (the claims under
study quantify over finite values), thrown errors as an Except monad, and
the aggregator's mutable state as explicit state passing.  The monotonic
clock hrTime is modelled as an explicit time argument.
-/

deriving instance DecidableEq for Except

namespace CarvTelemetry

attribute [local semireducible] Rat.add Rat.mul Rat.inv Rat.sub

/-- Errors thrown by the core: assertion failures from the assert calls,
TypeError from the create dispatcher, RangeError from JS array allocation. -/
inductive JsError where
  | assertionError (msg : String)
  | typeError (msg : String)
  | rangeError (msg : String)
deriving DecidableEq

/-- Modelled from the spec: the roundTo helper lives in the external stdlib
package, absent from src; the spec says it rounds to a fixed stable decimal
precision (for instance the nearest 1e-9), the exact precision being an
implementation choice.  We round to 9 decimal places. -/
def roundTo (q : ℚ) : ℚ :=
  (Rat.floor (q * 10 ^ 9 + 1 / 2) : ℚ) / 10 ^ 9

/-- JS array allocation: new Array(count) succeeds exactly when count is a
non-negative integer (non-finite counts cannot arise in the rational model),
and otherwise throws a RangeError. -/
def jsArrayLength (count : ℚ) : Option ℕ :=
  if count.den = 1 ∧ 0 ≤ count.num then some count.num.toNat else none

/-- The fill loop of generate: array[index] = value; value = next(value, index). -/
def generateGo (next : ℚ → ℕ → ℚ) : ℚ → ℕ → ℕ → List ℚ
  | _, _, 0 => []
  | value, index, n + 1 => value :: generateGo next (next value index) (index + 1) n

/-- generate(value, count, next) from the boundaries module.  The three
asserts check is.finite(value), is.finite(count) and is.function(next): in
the rational model with a typed next these always hold, so the only failure
left is the JS array allocation with a count that is not a valid length. -/
def generate (value : ℚ) (count : ℚ) (next : ℚ → ℕ → ℚ) : Except JsError (List ℚ) :=
  match jsArrayLength count with
  | some n => Except.ok (generateGo next value 0 n)
  | none => Except.error (JsError.rangeError "Invalid array length")

/-- linear(start, count, width = start): asserts width > 0 then generates by
repeated rounded addition.  A missing width argument defaults to start. -/
def linear (start : ℚ) (count : ℚ) (width : Option ℚ) : Except JsError (List ℚ) :=
  let w := width.getD start
  if 0 < w then generate start count (fun value _ => roundTo (value + w))
  else Except.error (JsError.assertionError "Linear boundaries needs a width greater than 0")

/-- exponential(start, count, factor = 2): asserts start > 0 and factor > 1
then generates by repeated rounded multiplication. -/
def exponential (start : ℚ) (count : ℚ) (factor : Option ℚ) : Except JsError (List ℚ) :=
  let f := factor.getD 2
  if 0 < start then
    if 1 < f then generate start count (fun value _ => roundTo (value * f))
    else Except.error (JsError.assertionError "Exponential boundaries needs a factor greater than 1")
  else Except.error (JsError.assertionError "Exponential boundaries needs a positive start")

/-- The runtime shapes create may receive: the members of the BoundariesConfig
union (undefined, a number array, a zero-argument producer, a linear or
exponential descriptor object) plus shapes outside the union (null and other
primitives), which reach the throw at the end of create. -/
inductive BoundariesConfig where
  | undef
  | arr (xs : List ℚ)
  | fn (f : Unit → BoundariesConfig)
  | obj (ty : Option String) (start : Option ℚ) (width : Option ℚ) (count : ℚ) (factor : Option ℚ)
  | nul
  | num (q : ℚ)
  | str (s : String)
  | bool (b : Bool)

/-- The JS typeof operator on the modelled shapes; typeof null is "object". -/
def jsTypeof : BoundariesConfig → String
  | BoundariesConfig.undef => "undefined"
  | BoundariesConfig.arr _ => "object"
  | BoundariesConfig.fn _ => "function"
  | BoundariesConfig.obj _ _ _ _ _ => "object"
  | BoundariesConfig.nul => "object"
  | BoundariesConfig.num _ => "number"
  | BoundariesConfig.str _ => "string"
  | BoundariesConfig.bool _ => "boolean"

/-- Decimal-free rendering of a rational, standing in for the JS number
formatting used by JSON.stringify; exact on integers, which is all the
claims exercise. -/
def ratToString (q : ℚ) : String :=
  if q.den = 1 then toString q.num else toString q.num ++ "/" ++ toString q.den

/-- JSON.stringify restricted to the shapes that can reach the throw in
create (null, numbers, strings, booleans). -/
def jsonStringify : BoundariesConfig → String
  | BoundariesConfig.nul => "null"
  | BoundariesConfig.num q => ratToString q
  | BoundariesConfig.str s => "\"" ++ s ++ "\""
  | BoundariesConfig.bool b => if b then "true" else "false"
  | _ => ""

/-- create(config): identity on undefined and arrays, recursive resolution of
producer functions, dispatch of descriptor objects to linear (when the type
tag is linear or a width is given, with width defaulting to 1 and start to
the width) or exponential (start defaulting to 1), and a TypeError naming
the received shape's typeof and JSON rendering otherwise. -/
def create : BoundariesConfig → Except JsError (Option (List ℚ))
  | BoundariesConfig.undef => Except.ok none
  | BoundariesConfig.arr xs => Except.ok (some xs)
  | BoundariesConfig.fn f => create (f ())
  | BoundariesConfig.obj ty start width count factor =>
    if ty = some "linear" ∨ width.isSome then
      let w := width.getD 1
      let s := start.getD w
      (linear s count (some w)).map some
    else
      (exponential (start.getD 1) count factor).map some
  | c => Except.error (JsError.typeError
      ("Invalid bucket config (" ++ jsTypeof c ++ "): " ++ jsonStringify c))

/-- The buckets record of a histogram checkpoint. -/
structure Buckets where
  boundaries : List ℚ
  counts : List ℕ
deriving DecidableEq

/-- The histogram checkpoint state: buckets, running sum, running count. -/
structure Histogram where
  buckets : Buckets
  sum : ℚ
  count : ℕ
deriving DecidableEq

/-- The state of a LessThenOrEqualHistogramAggregator instance: its stored
boundaries, its current checkpoint, and the time of the last update. -/
structure LessThenOrEqualHistogramAggregator where
  boundaries : List ℚ
  current : Histogram
  lastUpdateTime : ℕ
deriving DecidableEq

/-- The private newEmptyCheckpoint method: one zero count per boundary plus
one zero overflow slot. -/
def newEmptyCheckpoint (boundaries : List ℚ) : Histogram :=
  { buckets := { boundaries := boundaries, counts := boundaries.map (fun _ => 0) ++ [0] }
    sum := 0
    count := 0 }

/-- The aggregator constructor: asserts that the argument is an array with
positive length, sorts the boundaries ascending with the numeric comparator,
and starts from an empty checkpoint.  A missing (undefined) argument fails
the is.array test of the assert. -/
def mkLessThenOrEqualHistogramAggregator (now : ℕ) (boundaries : Option (List ℚ)) :
    Except JsError LessThenOrEqualHistogramAggregator :=
  match boundaries with
  | some bs =>
    if 0 < bs.length then
      let sorted := bs.insertionSort (· ≤ ·)
      Except.ok { boundaries := sorted, current := newEmptyCheckpoint sorted, lastUpdateTime := now }
    else Except.error (JsError.assertionError "HistogramAggregator should be created with boundaries.")
  | none => Except.error (JsError.assertionError "HistogramAggregator should be created with boundaries.")

/-- The scan loop of update: the index of the first boundary with
value ≤ boundary, and the list length (the overflow slot) when none
qualifies. -/
def bucketIndex (value : ℚ) : List ℚ → ℕ
  | [] => 0
  | b :: bs => if value ≤ b then 0 else bucketIndex value bs + 1

/-- The counts[i] += 1 write; out-of-range indices leave the list unchanged
(they cannot arise from a constructed aggregator). -/
def incrAt : List ℕ → ℕ → List ℕ
  | [], _ => []
  | c :: cs, 0 => (c + 1) :: cs
  | c :: cs, i + 1 => c :: incrAt cs i

/-- update(value): refresh the last-update time, bump count, add to sum, and
increment the slot chosen by the boundary scan. -/
def update (now : ℕ) (agg : LessThenOrEqualHistogramAggregator) (value : ℚ) :
    LessThenOrEqualHistogramAggregator :=
  { agg with
    lastUpdateTime := now
    current := { agg.current with
      count := agg.current.count + 1
      sum := agg.current.sum + value
      buckets := { agg.current.buckets with
        counts := incrAt agg.current.buckets.counts (bucketIndex value agg.boundaries) } } }

/-- A sequence of update calls, left to right. -/
def updateMany (now : ℕ) (agg : LessThenOrEqualHistogramAggregator) (vs : List ℚ) :
    LessThenOrEqualHistogramAggregator :=
  vs.foldl (update now) agg

/-- The checkpoint returned by toPoint: the current histogram state and the
last-update timestamp. -/
structure Point where
  value : Histogram
  timestamp : ℕ
deriving DecidableEq

/-- toPoint(): returns the current state and timestamp; the method body only
reads fields, so the state component is returned unchanged. -/
def toPoint (agg : LessThenOrEqualHistogramAggregator) :
    Point × LessThenOrEqualHistogramAggregator :=
  ({ value := agg.current, timestamp := agg.lastUpdateTime }, agg)

/-- The metric kinds of the underlying SDK's descriptor. -/
inductive MetricKind where
  | counter
  | upDownCounter
  | valueRecorder
  | sumObserver
  | upDownSumObserver
  | valueObserver
  | batchObserver
deriving DecidableEq

/-- The part of the metric descriptor that aggregatorFor consults: the kind
and the optional boundaries array. -/
structure MetricDescriptor where
  metricKind : MetricKind
  boundaries : Option (List ℚ)
deriving DecidableEq

/-- The aggregator chosen by the batcher: the custom histogram aggregator, a
LastValueAggregator, or the inherited per-kind default of the SDK. -/
inductive SelectedAggregator where
  | histogram (agg : LessThenOrEqualHistogramAggregator)
  | lastValue
  | sdkDefault (kind : MetricKind)
deriving DecidableEq

/-- Batcher.aggregatorFor: histogram when the descriptor carries a boundaries
array, last-value for value recorders, otherwise the SDK default. -/
def aggregatorFor (now : ℕ) (d : MetricDescriptor) : Except JsError SelectedAggregator :=
  match d.boundaries with
  | some bs => (mkLessThenOrEqualHistogramAggregator now (some bs)).map SelectedAggregator.histogram
  | none =>
    if d.metricKind = MetricKind.valueRecorder then Except.ok SelectedAggregator.lastValue
    else Except.ok (SelectedAggregator.sdkDefault d.metricKind)

/-! Helper lemmas about the embedded operations. -/

theorem incrAt_length (l : List ℕ) (i : ℕ) : (incrAt l i).length = l.length := by
  induction l generalizing i with
  | nil => rfl
  | cons c cs ih => cases i with
    | zero => rfl
    | succ j => simpa [incrAt] using ih j

theorem incrAt_sum (l : List ℕ) (i : ℕ) (h : i < l.length) :
    (incrAt l i).sum = l.sum + 1 := by
  induction l generalizing i with
  | nil => simp at h
  | cons c cs ih => cases i with
    | zero => simp [incrAt, Nat.add_right_comm]
    | succ j =>
      have := ih j (by simpa using h)
      simp [incrAt, this, Nat.add_assoc]

theorem incrAt_getD_self (l : List ℕ) (i : ℕ) (h : i < l.length) :
    (incrAt l i).getD i 0 = l.getD i 0 + 1 := by
  induction l generalizing i with
  | nil => simp at h
  | cons c cs ih => cases i with
    | zero => rfl
    | succ j => simpa [incrAt] using ih j (by simpa using h)

theorem incrAt_getD_ne (l : List ℕ) (i j : ℕ) (h : j ≠ i) :
    (incrAt l i).getD j 0 = l.getD j 0 := by
  induction l generalizing i j with
  | nil => rfl
  | cons c cs ih => cases i with
    | zero => cases j with
      | zero => exact absurd rfl h
      | succ j => rfl
    | succ i => cases j with
      | zero => rfl
      | succ j => simpa [incrAt] using ih i j (by omega)

theorem incrAt_getD_le (l : List ℕ) (i j : ℕ) :
    l.getD j 0 ≤ (incrAt l i).getD j 0 := by
  by_cases hji : j = i
  · subst hji
    by_cases hlt : j < l.length
    · rw [incrAt_getD_self l j hlt]
      omega
    · have h1 : l.getD j 0 = 0 := List.getD_eq_default l 0 (by omega)
      have h2 : (incrAt l j).getD j 0 = 0 :=
        List.getD_eq_default (incrAt l j) 0 (by rw [incrAt_length]; omega)
      omega
  · exact (incrAt_getD_ne l i j hji).ge

theorem bucketIndex_le_length (v : ℚ) (bs : List ℚ) : bucketIndex v bs ≤ bs.length := by
  induction bs with
  | nil => exact Nat.le_refl 0
  | cons b t ih =>
    simp only [bucketIndex]
    split
    · exact Nat.zero_le _
    · simpa using ih

theorem bucketIndex_earlier_lt (v : ℚ) (bs : List ℚ) (j : ℕ) (h : j < bucketIndex v bs) :
    bs.getD j 0 < v := by
  induction bs generalizing j with
  | nil => simp [bucketIndex] at h
  | cons b t ih =>
    simp only [bucketIndex] at h
    split at h
    · omega
    · cases j with
      | zero => simpa using not_le.mp (by assumption)
      | succ j => simpa using ih j (by omega)

theorem bucketIndex_le_boundary (v : ℚ) (bs : List ℚ) (h : bucketIndex v bs < bs.length) :
    v ≤ bs.getD (bucketIndex v bs) 0 := by
  induction bs with
  | nil => simp at h
  | cons b t ih =>
    by_cases hv : v ≤ b
    · simp [bucketIndex, hv]
    · have h' : bucketIndex v t < t.length := by
        simp only [bucketIndex, if_neg hv, List.length_cons] at h
        omega
      simpa [bucketIndex, hv] using ih h'

theorem bucketIndex_eq_length_iff (v : ℚ) (bs : List ℚ) :
    bucketIndex v bs = bs.length ↔ ∀ b ∈ bs, b < v := by
  induction bs with
  | nil => simp [bucketIndex]
  | cons b t ih =>
    simp only [bucketIndex, List.length_cons, List.mem_cons]
    constructor
    · intro h
      split at h
      · omega
      · intro x hx
        rcases hx with hx | hx
        · subst hx
          exact not_le.mp (by assumption)
        · exact (ih.mp (by omega)) x hx
    · intro h
      have hb : ¬ v ≤ b := not_le.mpr (h b (Or.inl rfl))
      rw [if_neg hb, ih.mpr fun x hx => h x (Or.inr hx)]

theorem update_boundaries (now : ℕ) (agg : LessThenOrEqualHistogramAggregator) (v : ℚ) :
    (update now agg v).boundaries = agg.boundaries := rfl

theorem update_counts_length (now : ℕ) (agg : LessThenOrEqualHistogramAggregator) (v : ℚ) :
    (update now agg v).current.buckets.counts.length
      = agg.current.buckets.counts.length := by
  simp [update, incrAt_length]

theorem updateMany_inv (now : ℕ) (vs : List ℚ) (agg : LessThenOrEqualHistogramAggregator)
    (h : agg.current.buckets.counts.length = agg.boundaries.length + 1) :
    (updateMany now agg vs).boundaries = agg.boundaries ∧
    (updateMany now agg vs).current.buckets.counts.length
      = agg.current.buckets.counts.length ∧
    (updateMany now agg vs).current.count = agg.current.count + vs.length ∧
    (updateMany now agg vs).current.buckets.counts.sum
      = agg.current.buckets.counts.sum + vs.length := by
  induction vs generalizing agg with
  | nil => simp [updateMany]
  | cons v t ih =>
    have hb : bucketIndex v agg.boundaries < agg.current.buckets.counts.length := by
      have := bucketIndex_le_length v agg.boundaries
      omega
    have hstep : updateMany now agg (v :: t) = updateMany now (update now agg v) t := rfl
    have hlen : (update now agg v).current.buckets.counts.length
        = (update now agg v).boundaries.length + 1 := by
      rw [update_counts_length, update_boundaries, h]
    obtain ⟨h1, h2, h3, h4⟩ := ih (update now agg v) hlen
    refine ⟨by rw [hstep, h1, update_boundaries], ?_, ?_, ?_⟩
    · rw [hstep, h2, update_counts_length]
    · rw [hstep, h3]
      simp [update, Nat.add_assoc, Nat.add_comm 1]
    · rw [hstep, h4]
      have : (update now agg v).current.buckets.counts.sum
          = agg.current.buckets.counts.sum + 1 := by
        simp [update, incrAt_sum _ _ hb]
      rw [this]
      simp [Nat.add_assoc, Nat.add_comm 1]

theorem mk_ok_shape (now : ℕ) (bs : List ℚ)
    (agg : LessThenOrEqualHistogramAggregator)
    (h : mkLessThenOrEqualHistogramAggregator now (some bs) = Except.ok agg) :
    agg.boundaries = bs.insertionSort (· ≤ ·) ∧
    agg.current = newEmptyCheckpoint (bs.insertionSort (· ≤ ·)) ∧
    agg.lastUpdateTime = now := by
  by_cases hlen : 0 < bs.length
  · simp only [mkLessThenOrEqualHistogramAggregator, if_pos hlen, Except.ok.injEq] at h
    exact ⟨by rw [← h], by rw [← h], by rw [← h]⟩
  · simp [mkLessThenOrEqualHistogramAggregator, hlen] at h

theorem newEmptyCheckpoint_counts_length (bs : List ℚ) :
    (newEmptyCheckpoint bs).buckets.counts.length = bs.length + 1 := by
  simp [newEmptyCheckpoint]

theorem newEmptyCheckpoint_counts_sum (bs : List ℚ) :
    (newEmptyCheckpoint bs).buckets.counts.sum = 0 := by
  apply List.sum_eq_zero
  intro x hx
  simp [newEmptyCheckpoint] at hx
  rcases hx with ⟨a, _, hx⟩ | hx
  · omega
  · omega

theorem generateGo_length (next : ℚ → ℕ → ℚ) (v : ℚ) (idx n : ℕ) :
    (generateGo next v idx n).length = n := by
  induction n generalizing v idx with
  | zero => rfl
  | succ n ih => simp [generateGo, ih]

theorem generateGo_getD_zero (next : ℚ → ℕ → ℚ) (v : ℚ) (idx n : ℕ) (h : 0 < n) :
    (generateGo next v idx n).getD 0 0 = v := by
  cases n with
  | zero => omega
  | succ n => rfl

theorem generateGo_getD_succ (next : ℚ → ℕ → ℚ) (n : ℕ) :
    ∀ (v : ℚ) (idx i : ℕ), i + 1 < n →
      (generateGo next v idx n).getD (i + 1) 0
        = next ((generateGo next v idx n).getD i 0) (idx + i) := by
  induction n with
  | zero =>
    intro v idx i h
    omega
  | succ n ih =>
    intro v idx i h
    cases i with
    | zero =>
      rw [Nat.add_zero]
      show (generateGo next (next v idx) (idx + 1) n).getD 0 0 = next v idx
      exact generateGo_getD_zero next (next v idx) (idx + 1) n (by omega)
    | succ k =>
      show (generateGo next (next v idx) (idx + 1) n).getD (k + 1) 0
        = next ((generateGo next (next v idx) (idx + 1) n).getD k 0) (idx + (k + 1))
      rw [ih (next v idx) (idx + 1) k (by omega)]
      congr 1
      omega

theorem jsArrayLength_natCast (n : ℕ) : jsArrayLength (n : ℚ) = some n := by
  simp [jsArrayLength]

/-! Claim theorems. -/

/-- C2: aggregatorFor selects the aggregator by checking, in order: an explicit
boundaries array yields the inclusive-upper-bound histogram aggregator built
from those boundaries; otherwise a value-recorder kind yields the last-value
aggregator; otherwise the SDK's default per-kind selection is used. -/
theorem aggregatorFor_selection_policy :
    (∀ (now : ℕ) (k : MetricKind) (bs : List ℚ),
      aggregatorFor now { metricKind := k, boundaries := some bs }
        = (mkLessThenOrEqualHistogramAggregator now (some bs)).map
            SelectedAggregator.histogram) ∧
    (∀ (now : ℕ) (k : MetricKind),
      aggregatorFor now { metricKind := k, boundaries := none }
        = Except.ok (if k = MetricKind.valueRecorder then SelectedAggregator.lastValue
            else SelectedAggregator.sdkDefault k)) := by
  refine ⟨fun now k bs => rfl, fun now k => ?_⟩
  by_cases h : k = MetricKind.valueRecorder <;> simp [aggregatorFor, h]

/-- C5: contrary to the claim (and to the message of the source's own assert,
which asks for a count greater than 1), generate checks only that the count is
finite: with count 0 it does not fail but succeeds with the empty list. -/
theorem generate_accepts_zero_count :
    generate 1 0 (fun v _ => v) = Except.ok [] := by decide

/-- C7: create is the identity on arrays and on undefined, resolves a producer
function by recursing on its result, and fails on every unrecognized shape
(null, numbers, strings, booleans) with a TypeError carrying the value's
typeof and its textual rendering. -/
theorem create_shape_dispatch :
    (∀ xs, create (BoundariesConfig.arr xs) = Except.ok (some xs)) ∧
    create BoundariesConfig.undef = Except.ok none ∧
    (∀ f, create (BoundariesConfig.fn f) = create (f ())) ∧
    create BoundariesConfig.nul
      = Except.error (JsError.typeError "Invalid bucket config (object): null") ∧
    (∀ q, create (BoundariesConfig.num q) = Except.error (JsError.typeError
      ("Invalid bucket config (number): " ++ ratToString q))) ∧
    (∀ s, create (BoundariesConfig.str s) = Except.error (JsError.typeError
      ("Invalid bucket config (string): \"" ++ s ++ "\""))) ∧
    (∀ b, create (BoundariesConfig.bool b) = Except.error (JsError.typeError
      ("Invalid bucket config (boolean): " ++ (if b then "true" else "false")))) :=
  ⟨fun _ => rfl, rfl, fun _ => rfl, rfl, fun _ => rfl, fun _ => rfl, fun _ => rfl⟩

/-- C8: toPoint returns the current state and last-update time, leaves every
field of the aggregator unchanged, and two consecutive calls with no update in
between return equal values and equal timestamps. -/
theorem toPoint_idempotent_and_pure (agg : LessThenOrEqualHistogramAggregator) :
    ((toPoint agg).1.value = agg.current ∧ (toPoint agg).1.timestamp = agg.lastUpdateTime) ∧
    (toPoint agg).2 = agg ∧
    (toPoint (toPoint agg).2).1.value = (toPoint agg).1.value ∧
    (toPoint (toPoint agg).2).1.timestamp = (toPoint agg).1.timestamp ∧
    (toPoint agg).2.boundaries = agg.boundaries ∧
    (toPoint agg).2.current.count = agg.current.count ∧
    (toPoint agg).2.current.sum = agg.current.sum ∧
    (toPoint agg).2.current.buckets.counts = agg.current.buckets.counts ∧
    (toPoint agg).2.lastUpdateTime = agg.lastUpdateTime :=
  ⟨⟨rfl, rfl⟩, rfl, rfl, rfl, rfl, rfl, rfl, rfl, rfl⟩

/-- C9: the concrete boundary-generation results: linear with omitted width,
linear with width 3, exponential with omitted factor, exponential with factor
3, and the two create descriptor examples. -/
theorem boundary_generation_examples :
    linear 2 3 none = Except.ok [2, 4, 6] ∧
    linear 2 5 (some 3) = Except.ok [2, 5, 8, 11, 14] ∧
    exponential 2 3 none = Except.ok [2, 4, 8] ∧
    exponential 2 5 (some 3) = Except.ok [2, 6, 18, 54, 162] ∧
    create (BoundariesConfig.obj (some "linear") none none 5 none)
      = Except.ok (some [1, 2, 3, 4, 5]) ∧
    create (BoundariesConfig.obj none none none 5 none)
      = Except.ok (some [1, 2, 4, 8, 16]) :=
  ⟨by decide, by decide, by decide, by decide, by decide, by decide⟩

/-- C10: a descriptor whose boundaries field is the empty array still takes the
histogram branch of aggregatorFor, whose constructor then rejects the empty
sequence, so selection fails for every metric kind instead of falling back. -/
theorem aggregatorFor_empty_boundaries_fails (now : ℕ) (k : MetricKind) :
    aggregatorFor now { metricKind := k, boundaries := some [] }
      = Except.error (JsError.assertionError
          "HistogramAggregator should be created with boundaries.") := rfl

/-- C4 counterexample: the constructor accepts the non-empty duplicate list
[1, 1] and stores it unchanged, and [1, 1] is not strictly ascending, so the
claim's strictness of the stored sequence fails. -/
theorem constructor_keeps_duplicate_boundaries :
    (mkLessThenOrEqualHistogramAggregator 0 (some [1, 1])).map (fun a => a.boundaries)
      = Except.ok [1, 1] ∧
    ¬ List.Sorted (· < ·) [(1 : ℚ), 1] := by
  constructor
  · decide
  · intro h
    exact absurd (List.rel_of_sorted_cons h 1 (by simp)) (by simp)

/-- C4 amended: constructing with a missing or empty boundaries sequence fails
with the precondition assertion; any non-empty sequence succeeds and stores a
permutation of the input sorted in non-decreasing (not necessarily strict)
order, non-empty, and strictly ascending when the input has no duplicates. -/
theorem constructor_sorts_boundaries (now : ℕ) (bs : List ℚ) (h : bs ≠ []) :
    mkLessThenOrEqualHistogramAggregator now none
      = Except.error (JsError.assertionError
          "HistogramAggregator should be created with boundaries.") ∧
    mkLessThenOrEqualHistogramAggregator now (some [])
      = Except.error (JsError.assertionError
          "HistogramAggregator should be created with boundaries.") ∧
    ∃ agg, mkLessThenOrEqualHistogramAggregator now (some bs) = Except.ok agg ∧
      agg.boundaries.Perm bs ∧
      agg.boundaries.Sorted (· ≤ ·) ∧
      agg.boundaries ≠ [] ∧
      (bs.Nodup → agg.boundaries.Sorted (· < ·)) := by
  have hlen : 0 < bs.length := List.length_pos.mpr h
  refine ⟨rfl, rfl,
    { boundaries := bs.insertionSort (· ≤ ·)
      current := newEmptyCheckpoint (bs.insertionSort (· ≤ ·))
      lastUpdateTime := now }, ?_, ?_, ?_, ?_, ?_⟩
  · simp [mkLessThenOrEqualHistogramAggregator, hlen]
  · exact List.perm_insertionSort _ bs
  · exact List.sorted_insertionSort _ bs
  · intro hnil
    have hl := List.length_insertionSort (· ≤ ·) bs
    have hnil' : List.insertionSort (· ≤ ·) bs = [] := hnil
    rw [hnil'] at hl
    simp at hl
    omega
  · intro hnodup
    exact (List.sorted_insertionSort _ bs).lt_of_le
      ((List.perm_insertionSort _ bs).nodup_iff.mpr hnodup)

/-- Witness for the amended C4 at the out-of-order input [2, 1]. -/
theorem constructor_sorts_boundaries_witness :
    mkLessThenOrEqualHistogramAggregator 0 none
      = Except.error (JsError.assertionError
          "HistogramAggregator should be created with boundaries.") ∧
    mkLessThenOrEqualHistogramAggregator 0 (some [])
      = Except.error (JsError.assertionError
          "HistogramAggregator should be created with boundaries.") ∧
    ∃ agg, mkLessThenOrEqualHistogramAggregator 0 (some [2, 1]) = Except.ok agg ∧
      agg.boundaries.Perm [2, 1] ∧
      agg.boundaries.Sorted (· ≤ ·) ∧
      agg.boundaries ≠ [] ∧
      (List.Nodup [(2 : ℚ), 1] → agg.boundaries.Sorted (· < ·)) :=
  constructor_sorts_boundaries 0 [2, 1] (by decide)

/-- C6: for a finite start, a positive integer count and any next function,
generate succeeds with a list of length count whose element 0 is the start
value and whose element i+1 is next applied to element i and i. -/
theorem generate_contract (start : ℚ) (n : ℕ) (next : ℚ → ℕ → ℚ) (h : 1 ≤ n) :
    ∃ l, generate start (n : ℚ) next = Except.ok l ∧
      l.length = n ∧
      l.getD 0 0 = start ∧
      ∀ i, i + 1 < n → l.getD (i + 1) 0 = next (l.getD i 0) i := by
  refine ⟨generateGo next start 0 n, ?_, generateGo_length next start 0 n,
    generateGo_getD_zero next start 0 n (by omega), ?_⟩
  · unfold generate
    rw [jsArrayLength_natCast]
  · intro i hi
    have hsucc := generateGo_getD_succ next n start 0 i hi
    simpa using hsucc

/-- Witness for C6 at start 2, count 3 and an addition step. -/
theorem generate_contract_witness :
    ∃ l, generate 2 ((3 : ℕ) : ℚ) (fun v _ => v + 2) = Except.ok l ∧
      l.length = 3 ∧
      l.getD 0 0 = 2 ∧
      ∀ i, i + 1 < 3 → l.getD (i + 1) 0 = l.getD i 0 + 2 :=
  generate_contract 2 3 (fun v _ => v + 2) (by omega)

/-- C1: update counts a value at the slot of the first stored boundary (in
index, hence ascending, order) that is greater than or equal to it, at the
overflow slot when no boundary qualifies, and leaves every other slot
unchanged; and for boundaries [1, 2, 4] and updates 1, 2, 3, 4, 5 the state
has count 5, sum 15, and cumulative bucket totals 1, 2, 4 and, including the
overflow slot, 5. -/
theorem update_places_value_at_first_boundary_ge
    (agg : LessThenOrEqualHistogramAggregator) (now : ℕ) (v : ℚ)
    (hlen : agg.current.buckets.counts.length = agg.boundaries.length + 1) :
    (∀ j, j < bucketIndex v agg.boundaries → agg.boundaries.getD j 0 < v) ∧
    (bucketIndex v agg.boundaries < agg.boundaries.length →
      v ≤ agg.boundaries.getD (bucketIndex v agg.boundaries) 0) ∧
    (bucketIndex v agg.boundaries = agg.boundaries.length ↔
      ∀ b ∈ agg.boundaries, b < v) ∧
    ((update now agg v).current.buckets.counts.getD (bucketIndex v agg.boundaries) 0
      = agg.current.buckets.counts.getD (bucketIndex v agg.boundaries) 0 + 1) ∧
    (∀ j, j ≠ bucketIndex v agg.boundaries →
      (update now agg v).current.buckets.counts.getD j 0
        = agg.current.buckets.counts.getD j 0) ∧
    ((mkLessThenOrEqualHistogramAggregator 0 (some [1, 2, 4])).map
        (fun a =>
          ((updateMany 1 a [1, 2, 3, 4, 5]).current.count,
            (updateMany 1 a [1, 2, 3, 4, 5]).current.sum,
            ((updateMany 1 a [1, 2, 3, 4, 5]).current.buckets.counts.take 1).sum,
            ((updateMany 1 a [1, 2, 3, 4, 5]).current.buckets.counts.take 2).sum,
            ((updateMany 1 a [1, 2, 3, 4, 5]).current.buckets.counts.take 3).sum,
            (updateMany 1 a [1, 2, 3, 4, 5]).current.buckets.counts.sum))
      = Except.ok (5, 15, 1, 2, 4, 5)) := by
  refine ⟨fun j hj => bucketIndex_earlier_lt v agg.boundaries j hj,
    fun hb => bucketIndex_le_boundary v agg.boundaries hb,
    bucketIndex_eq_length_iff v agg.boundaries, ?_, ?_, by decide⟩
  · show (incrAt agg.current.buckets.counts (bucketIndex v agg.boundaries)).getD
        (bucketIndex v agg.boundaries) 0
      = agg.current.buckets.counts.getD (bucketIndex v agg.boundaries) 0 + 1
    refine incrAt_getD_self _ _ ?_
    have := bucketIndex_le_length v agg.boundaries
    omega
  · intro j hj
    exact incrAt_getD_ne _ _ _ hj

/-- Witness for C1 at a concrete aggregator with boundaries [1, 2, 4], value 3. -/
theorem update_places_value_at_first_boundary_ge_witness :
    let agg : LessThenOrEqualHistogramAggregator :=
      { boundaries := [1, 2, 4]
        current := { buckets := { boundaries := [1, 2, 4], counts := [0, 0, 0, 0] }
                     sum := 0
                     count := 0 }
        lastUpdateTime := 0 }
    (∀ j, j < bucketIndex 3 agg.boundaries → agg.boundaries.getD j 0 < 3) ∧
    (bucketIndex 3 agg.boundaries < agg.boundaries.length →
      (3 : ℚ) ≤ agg.boundaries.getD (bucketIndex 3 agg.boundaries) 0) ∧
    (bucketIndex 3 agg.boundaries = agg.boundaries.length ↔
      ∀ b ∈ agg.boundaries, b < 3) ∧
    ((update 1 agg 3).current.buckets.counts.getD (bucketIndex 3 agg.boundaries) 0
      = agg.current.buckets.counts.getD (bucketIndex 3 agg.boundaries) 0 + 1) ∧
    (∀ j, j ≠ bucketIndex 3 agg.boundaries →
      (update 1 agg 3).current.buckets.counts.getD j 0
        = agg.current.buckets.counts.getD j 0) ∧
    ((mkLessThenOrEqualHistogramAggregator 0 (some [1, 2, 4])).map
        (fun a =>
          ((updateMany 1 a [1, 2, 3, 4, 5]).current.count,
            (updateMany 1 a [1, 2, 3, 4, 5]).current.sum,
            ((updateMany 1 a [1, 2, 3, 4, 5]).current.buckets.counts.take 1).sum,
            ((updateMany 1 a [1, 2, 3, 4, 5]).current.buckets.counts.take 2).sum,
            ((updateMany 1 a [1, 2, 3, 4, 5]).current.buckets.counts.take 3).sum,
            (updateMany 1 a [1, 2, 3, 4, 5]).current.buckets.counts.sum))
      = Except.ok (5, 15, 1, 2, 4, 5)) :=
  update_places_value_at_first_boundary_ge
    { boundaries := [1, 2, 4]
      current := { buckets := { boundaries := [1, 2, 4], counts := [0, 0, 0, 0] }
                   sum := 0
                   count := 0 }
      lastUpdateTime := 0 }
    1 3 rfl

/-- C3: from a freshly constructed histogram aggregator, after any sequence of
updates the sum of all count slots (buckets plus overflow) equals the number
of updates and equals the running count field, and no count slot ever
decreases across a single update of any aggregator state. -/
theorem histogram_count_conservation
    (now0 now : ℕ) (bs vs : List ℚ) (agg : LessThenOrEqualHistogramAggregator)
    (h : mkLessThenOrEqualHistogramAggregator now0 (some bs) = Except.ok agg) :
    ((updateMany now agg vs).current.buckets.counts.sum = vs.length ∧
      (updateMany now agg vs).current.count = vs.length) ∧
    ∀ (a : LessThenOrEqualHistogramAggregator) (t : ℕ) (v : ℚ) (i : ℕ),
      a.current.buckets.counts.getD i 0
        ≤ (update t a v).current.buckets.counts.getD i 0 := by
  obtain ⟨hb, hc, _⟩ := mk_ok_shape now0 bs agg h
  have hlen : agg.current.buckets.counts.length = agg.boundaries.length + 1 := by
    rw [hc, newEmptyCheckpoint_counts_length, hb]
  obtain ⟨_, _, h3, h4⟩ := updateMany_inv now vs agg hlen
  have hzero_sum : agg.current.buckets.counts.sum = 0 := by
    rw [hc]
    exact newEmptyCheckpoint_counts_sum _
  have hzero_cnt : agg.current.count = 0 := by rw [hc]; rfl
  refine ⟨⟨?_, ?_⟩, fun a t v i =>
    show a.current.buckets.counts.getD i 0
        ≤ (incrAt a.current.buckets.counts (bucketIndex v a.boundaries)).getD i 0 from
      incrAt_getD_le _ _ _⟩
  · rw [h4, hzero_sum, Nat.zero_add]
  · rw [h3, hzero_cnt, Nat.zero_add]

/-- Witness for C3 with boundaries [1, 2, 4] and the update sequence
1, 2, 3, 4, 5. -/
theorem histogram_count_conservation_witness :
    let agg : LessThenOrEqualHistogramAggregator :=
      { boundaries := [1, 2, 4]
        current := { buckets := { boundaries := [1, 2, 4], counts := [0, 0, 0, 0] }
                     sum := 0
                     count := 0 }
        lastUpdateTime := 0 }
    ((updateMany 1 agg [1, 2, 3, 4, 5]).current.buckets.counts.sum
        = List.length [(1 : ℚ), 2, 3, 4, 5] ∧
      (updateMany 1 agg [1, 2, 3, 4, 5]).current.count
        = List.length [(1 : ℚ), 2, 3, 4, 5]) ∧
    ∀ (a : LessThenOrEqualHistogramAggregator) (t : ℕ) (v : ℚ) (i : ℕ),
      a.current.buckets.counts.getD i 0
        ≤ (update t a v).current.buckets.counts.getD i 0 :=
  histogram_count_conservation 0 1 [1, 2, 4] [1, 2, 3, 4, 5]
    { boundaries := [1, 2, 4]
      current := { buckets := { boundaries := [1, 2, 4], counts := [0, 0, 0, 0] }
                   sum := 0
                   count := 0 }
      lastUpdateTime := 0 }
    (by decide)

end CarvTelemetry
